import Mathlib

/-!
Verification of the retry library (package `retry`, files `option.go` /
`retry.go`) against its specification.

The embedding models:
- Go `error` values by the inductive `GoErr`; the unexported `breakError`
  wrapper produced by `Break` is the pair of constructors
  `GoErr.breakNil` / `GoErr.breakWrap`, covering a nil and a non-nil
  wrapped error respectively.
- `time.Duration` by `Int`, with 64-bit two's-complement wraparound made
  explicit by `wrap64` exactly where Go arithmetic can overflow.
- the side effects of a run of `Config.Do` by a trace of `Event`s: one
  `callEv` per invocation of the operation, one `retryEv`/`failedEv` per
  invocation of the `OnRetry`/`OnFailed` callback, and one `delayEv` per
  evaluation of the delay strategy inside the `select`.
- the operation `fn func() error` by the sequence of results it returns,
  a function from the 0-based invocation index to `Option GoErr`
  (`none` = nil).
- the `context.Context` by the value of `ctx.Err()` when `Do` starts
  (`ctxErr : Option GoErr`) together with the outcome of each `select`
  race between `time.After` and `ctx.Done()`: `cancel k = some e` means
  the context wins the race in the wait following attempt `k` and
  `ctx.Err()` is then `e`; `cancel k = none` means the timer wins.
- `rand.Int63n` by an oracle `RandSrc`; its documented contract (a value
  in `[0, bound)` for a positive bound) is the predicate `RandSrc.valid`,
  and its documented panic on a non-positive bound is `Except.error`.
-/

/-- Model of Go `error` values.  `tagged k` is an arbitrary ordinary
error value; the unexported `breakError` struct returned by `Break`
embeds a possibly-nil error, encoded by the two constructors
`breakNil` (embedded error is nil) and `breakWrap` (embedded error is
the given non-nil one). -/
inductive GoErr where
  | tagged (k : Nat)
  | breakNil
  | breakWrap (inner : GoErr)
deriving DecidableEq

/-- Model of the dynamic type test `err.(breakError)` succeeding. -/
def GoErr.isBreakErr : GoErr → Bool
  | .breakNil => true
  | .breakWrap _ => true
  | .tagged _ => false

/-- Result of the unwrapping step in `Do`: after
`v, breakRetry := err.(breakError); if breakRetry { err = v.error }`
the working error is `unwrap` of the returned one (`none` = nil). -/
def GoErr.unwrap : GoErr → Option GoErr
  | .breakNil => none
  | .breakWrap inner => some inner
  | .tagged k => some (.tagged k)

/-- Model of `Break(err)` from option.go: wraps any error, including nil. -/
def Break (err : Option GoErr) : GoErr :=
  match err with
  | none => GoErr.breakNil
  | some e => GoErr.breakWrap e

/-- One observable side effect of a run of `Config.Do`. -/
inductive Event where
  | retryEv (n : Nat)
  | callEv (n : Nat)
  | failedEv (n : Nat) (e : GoErr)
  | delayEv (n : Nat) (e : GoErr) (d : Int)
deriving DecidableEq

/-- Attempt index of an operation invocation event. -/
def Event.callIdx : Event → Option Nat
  | .callEv n => some n
  | .retryEv _ => none
  | .failedEv _ _ => none
  | .delayEv _ _ _ => none

/-- Attempt index of an `OnRetry` callback event. -/
def Event.retryIdx : Event → Option Nat
  | .retryEv n => some n
  | .callEv _ => none
  | .failedEv _ _ => none
  | .delayEv _ _ _ => none

/-- Index and error of an `OnFailed` callback event. -/
def Event.failedPr : Event → Option (Nat × GoErr)
  | .failedEv n e => some (n, e)
  | .retryEv _ => none
  | .callEv _ => none
  | .delayEv _ _ _ => none

/-- Index, error and computed duration of a delay-strategy evaluation. -/
def Event.delayPr : Event → Option (Nat × GoErr × Int)
  | .delayEv n e d => some (n, e, d)
  | .retryEv _ => none
  | .callEv _ => none
  | .failedEv _ _ => none

/-- The two's-complement wraparound of Go 64-bit signed arithmetic. -/
def wrap64 (x : Int) : Int := (x + 2 ^ 63) % 2 ^ 64 - 2 ^ 63

/-- Model of the `Config` struct.  The callbacks and the delay strategy
are function-typed fields that may be nil (`none`); the effects of the
callbacks are recorded in the run trace, so their model codomains carry
no information. -/
structure Config where
  RetryTimes : Int
  OnRetry : Option (Nat → Unit)
  OnFailed : Option (Nat → GoErr → Unit)
  DelayStrategy : Option (Nat → GoErr → Int)

/-- Model of `WithTimes`: sets `RetryTimes` with no validation. -/
def WithTimes (retryTimes : Int) : Config → Config :=
  fun c => { c with RetryTimes := retryTimes }

/-- Model of `WithOnRetryFunc`. -/
def WithOnRetryFunc (fn : Nat → Unit) : Config → Config :=
  fun c => { c with OnRetry := some fn }

/-- Model of `WithOnFailedFunc`. -/
def WithOnFailedFunc (fn : Nat → GoErr → Unit) : Config → Config :=
  fun c => { c with OnFailed := some fn }

/-- Model of `WithDelayStrategy`. -/
def WithDelayStrategy (delayType : Nat → GoErr → Int) : Config → Config :=
  fun c => { c with DelayStrategy := some delayType }

/-- Model of `NewConfig`: applies the options in order to a zero-valued
configuration (Go zero value: `RetryTimes = 0`, nil function fields). -/
def NewConfig (opts : List (Config → Config)) : Config :=
  opts.foldl (fun c o => o c) ⟨0, none, none, none⟩

/-- Model of `FixedDelay`. -/
def FixedDelay (delay : Int) : Nat → GoErr → Int := fun _ _ => delay

/-- Model of `LinearDelay`: `baseDelay * time.Duration(n+1)` with 64-bit
wraparound, then clamped to `maxDelay` when above it or negative. -/
def LinearDelay (baseDelay maxDelay : Int) : Nat → GoErr → Int := fun n _ =>
  let delay := wrap64 (baseDelay * ((n : Int) + 1))
  if delay > maxDelay ∨ delay < 0 then maxDelay else delay

/-- Model of `ExponentialDelay`: `baseDelay << n` (64-bit wraparound of
`baseDelay * 2^n`), then clamped to `maxDelay` when above it or negative. -/
def ExponentialDelay (baseDelay maxDelay : Int) : Nat → GoErr → Int := fun n _ =>
  let delay := wrap64 (baseDelay * 2 ^ n)
  if delay > maxDelay ∨ delay < 0 then maxDelay else delay

/-- Oracle standing for the process-wide `math/rand` source. -/
structure RandSrc where
  int63n : Int → Int

/-- The documented contract of `rand.Int63n` for positive bounds: a
non-negative value strictly below the bound. -/
def RandSrc.valid (r : RandSrc) : Prop :=
  ∀ b : Int, 0 < b → 0 ≤ r.int63n b ∧ r.int63n b < b

/-- Construction-time normalization of `RandomDelay`: `minDelay`
raised to 0 when negative. -/
def normMin (minDelay : Int) : Int :=
  if minDelay < 0 then 0 else minDelay

/-- Construction-time normalization of `RandomDelay`: `maxDelay` raised
to the normalized `minDelay` when below it. -/
def normMax (minDelay maxDelay : Int) : Int :=
  if maxDelay < normMin minDelay then normMin minDelay else maxDelay

/-- Model of `RandomDelay`.  After normalization the closure returns
`minDelay` plus `rand.Int63n(maxDelay - minDelay + 1)` when the interval
is non-degenerate; `rand.Int63n` panics (`Except.error`) when its bound,
computed with 64-bit wraparound, is not positive. -/
def RandomDelay (r : RandSrc) (minDelay maxDelay : Int) :
    Nat → GoErr → Except Unit Int := fun _ _ =>
  if normMin minDelay < normMax minDelay maxDelay then
    let bound := wrap64 (normMax minDelay maxDelay - normMin minDelay + 1)
    if bound ≤ 0 then Except.error ()
    else Except.ok (wrap64 (normMin minDelay + r.int63n bound))
  else Except.ok (normMin minDelay)

/-- Events emitted at the head of loop iteration `n`: the `OnRetry`
callback fires exactly when `n > 0`. -/
def pre (n : Nat) : List Event :=
  if 0 < n then [Event.retryEv n] else []

/-- The `for` loop of `Config.Do`, one recursive call per iteration.
`rt` is `config.RetryTimes`, `ds` the (defaulted) delay strategy, `fn`
the operation, `cancel` the outcome of the `select` race after each
attempt, `n` the loop counter and `fuel` an upper bound on the number of
remaining iterations (the caller supplies `rt.toNat + 1`, which suffices
because the loop returns as soon as `rt ≤ n`). -/
def doLoop (rt : Int) (ds : Nat → GoErr → Int) (fn : Nat → Option GoErr)
    (cancel : Nat → Option GoErr) : Nat → Nat → List Event × Option GoErr
  | _, 0 => ([], none)
  | n, fuel + 1 =>
    match fn n with
    | none => (pre n ++ [Event.callEv n], none)
    | some e0 =>
      match e0.unwrap with
      | none => (pre n ++ [Event.callEv n], none)
      | some err =>
        if e0.isBreakErr ∨ rt ≤ (n : Int) then
          (pre n ++ [Event.callEv n, Event.failedEv n err], some err)
        else
          match cancel n with
          | some ce =>
            (pre n ++ [Event.callEv n, Event.failedEv n err,
              Event.delayEv n err (ds n err)], some ce)
          | none =>
            let r := doLoop rt ds fn cancel (n + 1) fuel
            (pre n ++ [Event.callEv n, Event.failedEv n err,
              Event.delayEv n err (ds n err)] ++ r.1, r.2)

/-- Model of the method `Config.Do`.  Returns the configuration as it
stands after the run (the method installs defaults into nil callback
fields through its pointer receiver), the event trace, and the returned
error.  `ctxErr` is `ctx.Err()` at entry. -/
def Config.Do (cfg : Config) (ctxErr : Option GoErr) (fn : Nat → Option GoErr)
    (cancel : Nat → Option GoErr) : Config × List Event × Option GoErr :=
  match ctxErr with
  | some e => (cfg, [], some e)
  | none =>
    let onR := match cfg.OnRetry with
      | none => some (fun _ => ())
      | some f => some f
    let onF := match cfg.OnFailed with
      | none => some (fun _ _ => ())
      | some f => some f
    let dls := match cfg.DelayStrategy with
      | none => some (FixedDelay 0)
      | some f => some f
    let ds := dls.getD (FixedDelay 0)
    let r := doLoop cfg.RetryTimes ds fn cancel 0 (cfg.RetryTimes.toNat + 1)
    (⟨cfg.RetryTimes, onR, onF, dls⟩, r.1, r.2)

/-- Events of a block of consecutive loop iterations that all take the
retry path: at each attempt `i` in `[n, n + rem)` the operation fails
with the plain retryable error `E i`, the budget is not exhausted and
the timer wins the wait. -/
def contTrace (ds : Nat → GoErr → Int) (E : Nat → GoErr) : Nat → Nat → List Event
  | _, 0 => []
  | n, rem + 1 =>
    pre n ++ [Event.callEv n, Event.failedEv n (E n),
      Event.delayEv n (E n) (ds n (E n))] ++ contTrace ds E (n + 1) rem

/-! Basic facts about the error model and 64-bit wraparound. -/

/-- A value that is not a `breakError` passes through the unwrapping step
unchanged. -/
lemma GoErr.unwrap_of_not_break (e : GoErr) (h : e.isBreakErr = false) :
    e.unwrap = some e := by
  cases e <;> simp_all [GoErr.isBreakErr, GoErr.unwrap]

/-- Wraparound is the identity on values representable in `int64`. -/
lemma wrap64_of_bounds (x : Int) (h1 : -(2 ^ 63) ≤ x) (h2 : x < 2 ^ 63) :
    wrap64 x = x := by
  have e1 : (2 : Int) ^ 63 = 9223372036854775808 := by norm_num
  have e2 : (2 : Int) ^ 64 = 18446744073709551616 := by norm_num
  rw [wrap64, e1, e2]
  rw [e1] at h1 h2
  omega

/-! Projections of the per-iteration event blocks. -/

lemma pre_callIdx (n : Nat) : (pre n).filterMap Event.callIdx = [] := by
  unfold pre; split <;> rfl

lemma pre_failedPr (n : Nat) : (pre n).filterMap Event.failedPr = [] := by
  unfold pre; split <;> rfl

lemma pre_delayPr (n : Nat) : (pre n).filterMap Event.delayPr = [] := by
  unfold pre; split <;> rfl

lemma pre_retryIdx (n : Nat) :
    (pre n).filterMap Event.retryIdx = if 0 < n then [n] else [] := by
  unfold pre; split <;> rfl

/-! Unfolding lemmas for single loop iterations. -/

/-- Iteration on which the operation returns nil: success. -/
lemma doLoop_step_success (rt : Int) (ds : Nat → GoErr → Int)
    (fn : Nat → Option GoErr) (cancel : Nat → Option GoErr)
    (n fuel : Nat) (hfn : fn n = none) :
    doLoop rt ds fn cancel n (fuel + 1) = (pre n ++ [Event.callEv n], none) := by
  simp [doLoop, hfn]

/-- Iteration on which the operation returns `Break(nil)`: success with
no `OnFailed` call. -/
lemma doLoop_step_breaknil (rt : Int) (ds : Nat → GoErr → Int)
    (fn : Nat → Option GoErr) (cancel : Nat → Option GoErr)
    (n fuel : Nat) (hfn : fn n = some GoErr.breakNil) :
    doLoop rt ds fn cancel n (fuel + 1) = (pre n ++ [Event.callEv n], none) := by
  simp [doLoop, hfn, GoErr.unwrap]

/-- Iteration on which the operation returns `Break(e)` with non-nil `e`:
the failure is reported and returned, with no delay evaluation. -/
lemma doLoop_step_breakerr (rt : Int) (ds : Nat → GoErr → Int)
    (fn : Nat → Option GoErr) (cancel : Nat → Option GoErr)
    (n fuel : Nat) (e : GoErr) (hfn : fn n = some (GoErr.breakWrap e)) :
    doLoop rt ds fn cancel n (fuel + 1) =
      (pre n ++ [Event.callEv n, Event.failedEv n e], some e) := by
  simp [doLoop, hfn, GoErr.unwrap, GoErr.isBreakErr]

/-- Iteration on which a plain retryable failure exhausts the budget. -/
lemma doLoop_step_exhaust (rt : Int) (ds : Nat → GoErr → Int)
    (fn : Nat → Option GoErr) (cancel : Nat → Option GoErr)
    (n fuel : Nat) (e : GoErr) (hfn : fn n = some e)
    (hbr : e.isBreakErr = false) (hge : rt ≤ (n : Int)) :
    doLoop rt ds fn cancel n (fuel + 1) =
      (pre n ++ [Event.callEv n, Event.failedEv n e], some e) := by
  simp [doLoop, hfn, GoErr.unwrap_of_not_break e hbr, hbr, hge]

/-- Iteration with a plain retryable failure and remaining budget, where
the context wins the `select` race: the strategy is evaluated but the
context error is returned. -/
lemma doLoop_step_cancel (rt : Int) (ds : Nat → GoErr → Int)
    (fn : Nat → Option GoErr) (cancel : Nat → Option GoErr)
    (n fuel : Nat) (e ce : GoErr) (hfn : fn n = some e)
    (hbr : e.isBreakErr = false) (hlt : (n : Int) < rt)
    (hcn : cancel n = some ce) :
    doLoop rt ds fn cancel n (fuel + 1) =
      (pre n ++ [Event.callEv n, Event.failedEv n e,
        Event.delayEv n e (ds n e)], some ce) := by
  simp [doLoop, hfn, GoErr.unwrap_of_not_break e hbr, hbr, hcn, not_le.mpr hlt]

/-- Iteration with a plain retryable failure and remaining budget, where
the timer wins the `select` race: the loop continues. -/
lemma doLoop_step_cont (rt : Int) (ds : Nat → GoErr → Int)
    (fn : Nat → Option GoErr) (cancel : Nat → Option GoErr)
    (n fuel : Nat) (e : GoErr) (hfn : fn n = some e)
    (hbr : e.isBreakErr = false) (hlt : (n : Int) < rt)
    (hcn : cancel n = none) :
    doLoop rt ds fn cancel n (fuel + 1) =
      (pre n ++ [Event.callEv n, Event.failedEv n e,
          Event.delayEv n e (ds n e)] ++ (doLoop rt ds fn cancel (n + 1) fuel).1,
        (doLoop rt ds fn cancel (n + 1) fuel).2) := by
  simp [doLoop, hfn, GoErr.unwrap_of_not_break e hbr, hbr, hcn, not_le.mpr hlt]

/-- A block of `rem` consecutive retry-path iterations prepends
`contTrace` to the remaining run. -/
lemma doLoop_cont (rt : Int) (ds : Nat → GoErr → Int) (fn : Nat → Option GoErr)
    (cancel : Nat → Option GoErr) (E : Nat → GoErr) :
    ∀ (rem n fuel : Nat),
      (∀ i, n ≤ i → i < n + rem →
        fn i = some (E i) ∧ (E i).isBreakErr = false ∧ (i : Int) < rt ∧
          cancel i = none) →
      doLoop rt ds fn cancel n (rem + fuel) =
        (contTrace ds E n rem ++ (doLoop rt ds fn cancel (n + rem) fuel).1,
          (doLoop rt ds fn cancel (n + rem) fuel).2) := by
  intro rem
  induction rem with
  | zero => intro n fuel h; simp [contTrace]
  | succ m ih =>
    intro n fuel h
    obtain ⟨hfn, hbr, hlt, hcn⟩ := h n (le_refl n) (by omega)
    have harith : m + 1 + fuel = (m + fuel) + 1 := by omega
    rw [harith, doLoop_step_cont rt ds fn cancel n (m + fuel) (E n) hfn hbr hlt hcn]
    rw [ih (n + 1) fuel (fun i h1 h2 => h i (by omega) (by omega))]
    have hnm : n + (m + 1) = (n + 1) + m := by omega
    simp [contTrace, hnm]

/-! Projections of `contTrace`. -/

lemma contTrace_callIdx (ds : Nat → GoErr → Int) (E : Nat → GoErr) :
    ∀ (rem n : Nat),
      (contTrace ds E n rem).filterMap Event.callIdx = List.range' n rem := by
  intro rem
  induction rem with
  | zero => intro n; simp [contTrace]
  | succ m ih =>
    intro n
    simp [contTrace, List.filterMap_append, pre_callIdx, ih, List.range'_succ,
      Event.callIdx, Event.failedPr, Event.delayPr]

lemma contTrace_failedPr (ds : Nat → GoErr → Int) (E : Nat → GoErr) :
    ∀ (rem n : Nat),
      (contTrace ds E n rem).filterMap Event.failedPr =
        (List.range' n rem).map (fun i => (i, E i)) := by
  intro rem
  induction rem with
  | zero => intro n; simp [contTrace]
  | succ m ih =>
    intro n
    simp [contTrace, List.filterMap_append, pre_failedPr, ih, List.range'_succ,
      Event.failedPr]

lemma contTrace_delayPr (ds : Nat → GoErr → Int) (E : Nat → GoErr) :
    ∀ (rem n : Nat),
      (contTrace ds E n rem).filterMap Event.delayPr =
        (List.range' n rem).map (fun i => (i, E i, ds i (E i))) := by
  intro rem
  induction rem with
  | zero => intro n; simp [contTrace]
  | succ m ih =>
    intro n
    simp [contTrace, List.filterMap_append, pre_delayPr, ih, List.range'_succ,
      Event.delayPr]

lemma contTrace_retryIdx_pos (ds : Nat → GoErr → Int) (E : Nat → GoErr) :
    ∀ (rem n : Nat), 0 < n →
      (contTrace ds E n rem).filterMap Event.retryIdx = List.range' n rem := by
  intro rem
  induction rem with
  | zero => intro n _; simp [contTrace]
  | succ m ih =>
    intro n hn
    simp [contTrace, List.filterMap_append, pre_retryIdx, hn,
      ih (n + 1) (by omega), List.range'_succ, Event.retryIdx]

lemma contTrace_retryIdx_zero (ds : Nat → GoErr → Int) (E : Nat → GoErr)
    (rem : Nat) :
    (contTrace ds E 0 rem).filterMap Event.retryIdx = List.range' 1 (rem - 1) := by
  cases rem with
  | zero => simp [contTrace]
  | succ m =>
    simp [contTrace, List.filterMap_append, pre_retryIdx,
      contTrace_retryIdx_pos ds E m 1 (by omega), Event.retryIdx]

/-- With a non-canceled context and an explicitly supplied strategy,
`Config.Do` runs the loop with fuel `RetryTimes.toNat + 1`. -/
lemma Do_snd (rt : Int) (orf : Option (Nat → Unit))
    (off : Option (Nat → GoErr → Unit)) (ds : Nat → GoErr → Int)
    (fn : Nat → Option GoErr) (cancel : Nat → Option GoErr) :
    ((Config.mk rt orf off (some ds)).Do none fn cancel).2 =
      doLoop rt ds fn cancel 0 (rt.toNat + 1) := rfl

/-! Characterizations of complete runs of `Config.Do`. -/

/-- Run in which every attempt fails with a plain retryable error and the
budget `b` is exhausted: attempts `0..b`, then the last error is
returned. -/
lemma run_allfail (b : Nat) (orf : Option (Nat → Unit))
    (off : Option (Nat → GoErr → Unit)) (ds : Nat → GoErr → Int)
    (fn : Nat → Option GoErr) (cancel : Nat → Option GoErr) (E : Nat → GoErr)
    (hfn : ∀ i, i ≤ b → fn i = some (E i))
    (hbr : ∀ i, i ≤ b → (E i).isBreakErr = false)
    (hc : ∀ i, i < b → cancel i = none) :
    ((Config.mk (b : Int) orf off (some ds)).Do none fn cancel).2 =
      (contTrace ds E 0 b ++ pre b ++ [Event.callEv b, Event.failedEv b (E b)],
        some (E b)) := by
  rw [Do_snd, Int.toNat_natCast]
  rw [doLoop_cont (b : Int) ds fn cancel E b 0 1
    (fun i h1 h2 => ⟨hfn i (by omega), hbr i (by omega),
      by exact_mod_cast Int.ofNat_lt.mpr (by omega), hc i (by omega)⟩)]
  rw [doLoop_step_exhaust (b : Int) ds fn cancel (0 + b) 0 (E (0 + b))
    (hfn (0 + b) (by omega)) (hbr (0 + b) (by omega)) (by omega)]
  simp

/-- Run in which attempts `0..m-1` fail with plain retryable errors, the
timer always wins the wait, and attempt `m` succeeds. -/
lemma run_success (rt : Int) (orf : Option (Nat → Unit))
    (off : Option (Nat → GoErr → Unit)) (ds : Nat → GoErr → Int)
    (fn : Nat → Option GoErr) (cancel : Nat → Option GoErr) (E : Nat → GoErr)
    (m : Nat)
    (hpre : ∀ i, i < m → fn i = some (E i) ∧ (E i).isBreakErr = false ∧
      (i : Int) < rt ∧ cancel i = none)
    (hm : fn m = none) :
    ((Config.mk rt orf off (some ds)).Do none fn cancel).2 =
      (contTrace ds E 0 m ++ pre m ++ [Event.callEv m], none) := by
  have hfuel : m ≤ rt.toNat := by
    cases m with
    | zero => omega
    | succ j =>
      have := (hpre j (by omega)).2.2.1
      omega
  obtain ⟨f, hf⟩ : ∃ f, rt.toNat + 1 = m + (f + 1) := ⟨rt.toNat - m, by omega⟩
  rw [Do_snd, hf]
  rw [doLoop_cont rt ds fn cancel E m 0 (f + 1)
    (fun i h1 h2 => hpre i (by omega))]
  rw [doLoop_step_success rt ds fn cancel (0 + m) f (by simpa using hm)]
  simp

/-- Run in which attempts `0..j-1` fail with plain retryable errors, the
timer always wins the wait, and attempt `j` returns a Terminal-marked
error wrapping `inner`. -/
lemma run_break (rt : Int) (orf : Option (Nat → Unit))
    (off : Option (Nat → GoErr → Unit)) (ds : Nat → GoErr → Int)
    (fn : Nat → Option GoErr) (cancel : Nat → Option GoErr) (E : Nat → GoErr)
    (j : Nat) (inner : Option GoErr)
    (hpre : ∀ i, i < j → fn i = some (E i) ∧ (E i).isBreakErr = false ∧
      (i : Int) < rt ∧ cancel i = none)
    (hj : fn j = some (Break inner)) :
    ((Config.mk rt orf off (some ds)).Do none fn cancel).2 =
      (contTrace ds E 0 j ++ pre j ++ Event.callEv j ::
        (match inner with
          | some e => [Event.failedEv j e]
          | none => []),
        inner) := by
  have hfuel : j ≤ rt.toNat := by
    cases j with
    | zero => omega
    | succ i =>
      have := (hpre i (by omega)).2.2.1
      omega
  obtain ⟨f, hf⟩ : ∃ f, rt.toNat + 1 = j + (f + 1) := ⟨rt.toNat - j, by omega⟩
  rw [Do_snd, hf]
  rw [doLoop_cont rt ds fn cancel E j 0 (f + 1)
    (fun i h1 h2 => hpre i (by omega))]
  cases inner with
  | none =>
    rw [doLoop_step_breaknil rt ds fn cancel (0 + j) f (by simpa [Break] using hj)]
    simp
  | some e =>
    rw [doLoop_step_breakerr rt ds fn cancel (0 + j) f e (by simpa [Break] using hj)]
    simp

/-- Run in which attempts `0..k-1` fail with plain retryable errors and
the timer wins, attempt `k` fails with remaining budget, and the context
wins the `select` race in the following wait. -/
lemma run_cancel (rt : Int) (orf : Option (Nat → Unit))
    (off : Option (Nat → GoErr → Unit)) (ds : Nat → GoErr → Int)
    (fn : Nat → Option GoErr) (cancel : Nat → Option GoErr) (E : Nat → GoErr)
    (k : Nat) (ce : GoErr)
    (hpre : ∀ i, i < k → fn i = some (E i) ∧ (E i).isBreakErr = false ∧
      (i : Int) < rt ∧ cancel i = none)
    (hk : fn k = some (E k)) (hkbr : (E k).isBreakErr = false)
    (hklt : (k : Int) < rt) (hck : cancel k = some ce) :
    ((Config.mk rt orf off (some ds)).Do none fn cancel).2 =
      (contTrace ds E 0 k ++ pre k ++ [Event.callEv k, Event.failedEv k (E k),
        Event.delayEv k (E k) (ds k (E k))], some ce) := by
  have hfuel : k ≤ rt.toNat := by omega
  obtain ⟨f, hf⟩ : ∃ f, rt.toNat + 1 = k + (f + 1) := ⟨rt.toNat - k, by omega⟩
  rw [Do_snd, hf]
  rw [doLoop_cont rt ds fn cancel E k 0 (f + 1)
    (fun i h1 h2 => hpre i (by omega))]
  rw [doLoop_step_cancel rt ds fn cancel (0 + k) f (E (0 + k)) ce
    (by simpa using hk) (by simpa using hkbr) (by simpa using hklt)
    (by simpa using hck)]
  simp

/-- C1: with retry budget `b ≥ 0` and an operation failing retryably on
every call (and no cancellation), the operation runs exactly `b+1` times
(attempts `0..b`), `onFailed` fires `b+1` times with `n = 0..b` in order,
`onRetry` fires `b` times with `n = 1..b` in order, and the last
attempt's error is returned verbatim. -/
theorem do_exhausts_budget_with_observers (b : Nat) (orf : Option (Nat → Unit))
    (off : Option (Nat → GoErr → Unit)) (ds : Nat → GoErr → Int)
    (fn : Nat → Option GoErr) (cancel : Nat → Option GoErr) (E : Nat → GoErr)
    (hfn : ∀ i, fn i = some (E i))
    (hbr : ∀ i, (E i).isBreakErr = false)
    (hc : ∀ i, cancel i = none) :
    (((Config.mk (b : Int) orf off (some ds)).Do none fn cancel).2.1.filterMap
        Event.callIdx,
      ((Config.mk (b : Int) orf off (some ds)).Do none fn cancel).2.1.filterMap
        Event.failedPr,
      ((Config.mk (b : Int) orf off (some ds)).Do none fn cancel).2.1.filterMap
        Event.retryIdx,
      ((Config.mk (b : Int) orf off (some ds)).Do none fn cancel).2.2) =
    (List.range (b + 1),
      (List.range (b + 1)).map (fun i => (i, E i)),
      (List.range b).map (fun i => i + 1),
      some (E b)) := by
  have hrun := run_allfail b orf off ds fn cancel E (fun i _ => hfn i)
    (fun i _ => hbr i) (fun i _ => hc i)
  rw [hrun]
  simp only [List.filterMap_append, contTrace_callIdx, contTrace_failedPr,
    contTrace_retryIdx_zero, pre_callIdx, pre_failedPr, pre_retryIdx]
  cases b with
  | zero => rfl
  | succ j =>
    simp only [List.filterMap_cons, Event.callIdx, Event.retryIdx,
      Event.failedPr, List.range_eq_range', List.filterMap_nil,
      List.append_nil, Nat.add_sub_cancel, Prod.mk.injEq]
    rw [if_pos (Nat.succ_pos j)]
    refine ⟨?_, ?_, ?_, trivial⟩
    · rw [List.range'_concat 0 (j + 1)]; norm_num
    · rw [List.range'_concat 0 (j + 1), List.map_append]; norm_num
    · have h : (List.range' 0 (j + 1)).map (fun i => i + 1) =
          List.range' 1 (j + 1) := by
        simpa [Nat.add_comm] using List.map_add_range' 1 0 (j + 1) 1
      rw [h, List.range'_concat]
      norm_num
      omega

/-- Witness for `do_exhausts_budget_with_observers` at budget 2, the
constant error `tagged 7`, and the zero strategy. -/
theorem do_exhausts_budget_with_observers_witness :
    (((Config.mk ((2 : Nat) : Int) none none (some (FixedDelay 0))).Do none
        (fun _ => some (GoErr.tagged 7)) (fun _ => none)).2.1.filterMap
        Event.callIdx,
      ((Config.mk ((2 : Nat) : Int) none none (some (FixedDelay 0))).Do none
        (fun _ => some (GoErr.tagged 7)) (fun _ => none)).2.1.filterMap
        Event.failedPr,
      ((Config.mk ((2 : Nat) : Int) none none (some (FixedDelay 0))).Do none
        (fun _ => some (GoErr.tagged 7)) (fun _ => none)).2.1.filterMap
        Event.retryIdx,
      ((Config.mk ((2 : Nat) : Int) none none (some (FixedDelay 0))).Do none
        (fun _ => some (GoErr.tagged 7)) (fun _ => none)).2.2) =
    (List.range 3,
      (List.range 3).map (fun i => (i, GoErr.tagged 7)),
      (List.range 2).map (fun i => i + 1),
      some (GoErr.tagged 7)) :=
  do_exhausts_budget_with_observers 2 none none (FixedDelay 0)
    (fun _ => some (GoErr.tagged 7)) (fun _ => none) (fun _ => GoErr.tagged 7)
    (fun _ => rfl) (fun _ => rfl) (fun _ => rfl)

/-- C5: a cancellation signal already fired before `Do` starts yields
zero operation invocations, no observer calls (empty trace), an
unchanged configuration and the signal's own error as the result. -/
theorem do_precanceled_returns_ctx_error (cfg : Config)
    (fn : Nat → Option GoErr) (cancel : Nat → Option GoErr) (e : GoErr) :
    cfg.Do (some e) fn cancel = (cfg, [], some e) := rfl

/-- C2 counterexample: `Do` mutates the configuration through its
pointer receiver.  On a config whose callback fields are nil, the run
installs default callbacks, so the configuration after the run differs
from the one before it. -/
theorem do_mutates_config_with_nil_callbacks :
    ((Config.mk 0 none none none).Do none (fun _ => none)
      (fun _ => none)).1 ≠ Config.mk 0 none none none := by
  intro h
  have h2 := congrArg Config.OnRetry h
  simp [Config.Do] at h2

/-- C2 amended: `RetryTimes` is never mutated by `Do`, each function
field is preserved whenever it is non-nil, and a configuration whose
three function fields are all set is returned entirely unchanged (only
nil callback fields are overwritten with defaults). -/
theorem do_preserves_config_with_callbacks_set (cfg : Config)
    (ctxErr : Option GoErr) (fn : Nat → Option GoErr)
    (cancel : Nat → Option GoErr) :
    (cfg.Do ctxErr fn cancel).1.RetryTimes = cfg.RetryTimes ∧
    (cfg.OnRetry.isSome = true →
      (cfg.Do ctxErr fn cancel).1.OnRetry = cfg.OnRetry) ∧
    (cfg.OnFailed.isSome = true →
      (cfg.Do ctxErr fn cancel).1.OnFailed = cfg.OnFailed) ∧
    (cfg.DelayStrategy.isSome = true →
      (cfg.Do ctxErr fn cancel).1.DelayStrategy = cfg.DelayStrategy) ∧
    (cfg.OnRetry.isSome = true → cfg.OnFailed.isSome = true →
      cfg.DelayStrategy.isSome = true →
      (cfg.Do ctxErr fn cancel).1 = cfg) := by
  obtain ⟨rt, orf, off, dls⟩ := cfg
  cases ctxErr with
  | some e => simp [Config.Do]
  | none =>
    refine ⟨rfl, ?_, ?_, ?_, ?_⟩ <;>
      cases orf <;> cases off <;> cases dls <;> simp [Config.Do]

/-- Witness for `do_preserves_config_with_callbacks_set` on a
configuration with all three function fields set. -/
theorem do_preserves_config_with_callbacks_set_witness :
    ((Config.mk 3 (some (fun _ => ())) (some (fun _ _ => ()))
        (some (FixedDelay 1))).Do none (fun _ => none) (fun _ => none)).1 =
      Config.mk 3 (some (fun _ => ())) (some (fun _ _ => ()))
        (some (FixedDelay 1)) :=
  (do_preserves_config_with_callbacks_set
    (Config.mk 3 (some (fun _ => ())) (some (fun _ _ => ()))
      (some (FixedDelay 1))) none (fun _ => none)
    (fun _ => none)).2.2.2.2 rfl rfl rfl

/-- C3: an operation returning a Terminal-marked error `Break(inner)` on
attempt `j` causes no further attempts regardless of remaining budget,
no delay-strategy evaluation for attempt `j`, the unwrapped inner error
(possibly nil) as the result, and an `onFailed(j, e)` call exactly when
the inner error `e` is non-nil.  With `j = 0` this is exactly one
invocation in total. -/
theorem do_break_short_circuits (rt : Int) (orf : Option (Nat → Unit))
    (off : Option (Nat → GoErr → Unit)) (ds : Nat → GoErr → Int)
    (fn : Nat → Option GoErr) (cancel : Nat → Option GoErr) (E : Nat → GoErr)
    (j : Nat) (inner : Option GoErr)
    (hpre : ∀ i, i < j → fn i = some (E i) ∧ (E i).isBreakErr = false ∧
      (i : Int) < rt ∧ cancel i = none)
    (hj : fn j = some (Break inner)) :
    (((Config.mk rt orf off (some ds)).Do none fn cancel).2.2,
      ((Config.mk rt orf off (some ds)).Do none fn cancel).2.1.filterMap
        Event.callIdx,
      ((Config.mk rt orf off (some ds)).Do none fn cancel).2.1.filterMap
        Event.delayPr,
      ((Config.mk rt orf off (some ds)).Do none fn cancel).2.1.filterMap
        Event.failedPr) =
    (inner,
      List.range (j + 1),
      (List.range j).map (fun i => (i, E i, ds i (E i))),
      (List.range j).map (fun i => (i, E i)) ++
        (match inner with
          | some e => [(j, e)]
          | none => [])) := by
  have hrun := run_break rt orf off ds fn cancel E j inner hpre hj
  rw [hrun]
  cases inner with
  | none =>
    simp only [List.filterMap_append, List.filterMap_cons, contTrace_callIdx,
      contTrace_delayPr, contTrace_failedPr, pre_callIdx, pre_delayPr,
      pre_failedPr, Event.callIdx, Event.delayPr, Event.failedPr,
      List.filterMap_nil, List.append_nil, List.range_eq_range',
      Prod.mk.injEq]
    simp [List.range'_concat 0 j]
  | some e =>
    simp only [List.filterMap_append, List.filterMap_cons, contTrace_callIdx,
      contTrace_delayPr, contTrace_failedPr, pre_callIdx, pre_delayPr,
      pre_failedPr, Event.callIdx, Event.delayPr, Event.failedPr,
      List.filterMap_nil, List.append_nil, List.range_eq_range',
      Prod.mk.injEq]
    simp [List.range'_concat 0 j]

/-- Witness for `do_break_short_circuits`: `Break` around a non-nil
error on the very first call, with budget 10. -/
theorem do_break_short_circuits_witness :
    (((Config.mk 10 none none (some (FixedDelay 0))).Do none
        (fun _ => some (Break (some (GoErr.tagged 3)))) (fun _ => none)).2.2,
      ((Config.mk 10 none none (some (FixedDelay 0))).Do none
        (fun _ => some (Break (some (GoErr.tagged 3)))) (fun _ => none)).2.1.filterMap
        Event.callIdx,
      ((Config.mk 10 none none (some (FixedDelay 0))).Do none
        (fun _ => some (Break (some (GoErr.tagged 3)))) (fun _ => none)).2.1.filterMap
        Event.delayPr,
      ((Config.mk 10 none none (some (FixedDelay 0))).Do none
        (fun _ => some (Break (some (GoErr.tagged 3)))) (fun _ => none)).2.1.filterMap
        Event.failedPr) =
    (some (GoErr.tagged 3),
      List.range 1,
      (List.range 0).map (fun i => (i, GoErr.tagged 0, FixedDelay 0 i (GoErr.tagged 0))),
      (List.range 0).map (fun i => (i, GoErr.tagged 0)) ++ [(0, GoErr.tagged 3)]) :=
  do_break_short_circuits 10 none none (FixedDelay 0)
    (fun _ => some (Break (some (GoErr.tagged 3)))) (fun _ => none)
    (fun _ => GoErr.tagged 0) 0 (some (GoErr.tagged 3))
    (fun i hi => absurd hi (by omega)) rfl

/-- C4: when the cancellation signal wins the `select` race in the wait
after attempt `k`, `Do` returns the signal's error (the pending attempt
error is discarded) and performs no further operation invocations. -/
theorem do_cancel_during_wait_returns_ctx_error (rt : Int)
    (orf : Option (Nat → Unit)) (off : Option (Nat → GoErr → Unit))
    (ds : Nat → GoErr → Int) (fn : Nat → Option GoErr)
    (cancel : Nat → Option GoErr) (E : Nat → GoErr) (k : Nat) (ce : GoErr)
    (hpre : ∀ i, i < k → fn i = some (E i) ∧ (E i).isBreakErr = false ∧
      (i : Int) < rt ∧ cancel i = none)
    (hk : fn k = some (E k)) (hkbr : (E k).isBreakErr = false)
    (hklt : (k : Int) < rt) (hck : cancel k = some ce) :
    (((Config.mk rt orf off (some ds)).Do none fn cancel).2.2,
      ((Config.mk rt orf off (some ds)).Do none fn cancel).2.1.filterMap
        Event.callIdx) =
    (some ce, List.range (k + 1)) := by
  have hrun := run_cancel rt orf off ds fn cancel E k ce hpre hk hkbr hklt hck
  rw [hrun]
  simp only [List.filterMap_append, List.filterMap_cons, contTrace_callIdx,
    pre_callIdx, Event.callIdx, List.filterMap_nil, List.append_nil,
    List.range_eq_range', Prod.mk.injEq]
  simp [List.range'_concat 0 k]

/-- Witness for `do_cancel_during_wait_returns_ctx_error`: with budget 3
and an always-failing operation, the context fires during the wait after
attempt 1. -/
theorem do_cancel_during_wait_returns_ctx_error_witness :
    (((Config.mk 3 none none (some (FixedDelay 0))).Do none
        (fun _ => some (GoErr.tagged 4))
        (fun i => if i = 1 then some (GoErr.tagged 9) else none)).2.2,
      ((Config.mk 3 none none (some (FixedDelay 0))).Do none
        (fun _ => some (GoErr.tagged 4))
        (fun i => if i = 1 then some (GoErr.tagged 9) else none)).2.1.filterMap
        Event.callIdx) =
    (some (GoErr.tagged 9), List.range 2) :=
  do_cancel_during_wait_returns_ctx_error 3 none none (FixedDelay 0)
    (fun _ => some (GoErr.tagged 4))
    (fun i => if i = 1 then some (GoErr.tagged 9) else none)
    (fun _ => GoErr.tagged 4) 1 (GoErr.tagged 9)
    (fun i hi => ⟨rfl, rfl, by omega, by simp [Nat.lt_one_iff.mp hi]⟩)
    rfl rfl (by norm_num) rfl

/-- A single loop iteration with a non-positive budget: the first
attempt is final, whatever its outcome. -/
lemma doLoop_fuel_one_nonpos (rt : Int) (hrt : rt ≤ 0)
    (ds : Nat → GoErr → Int) (fn : Nat → Option GoErr)
    (cancel : Nat → Option GoErr) :
    doLoop rt ds fn cancel 0 1 =
      (Event.callEv 0 ::
        (match (fn 0).bind GoErr.unwrap with
          | some e => [Event.failedEv 0 e]
          | none => []),
        (fn 0).bind GoErr.unwrap) := by
  cases hfn : fn 0 with
  | none => simp [doLoop, hfn, pre]
  | some e0 =>
    cases hu : e0.unwrap with
    | none => simp [doLoop, hfn, hu, pre]
    | some err =>
      have hcond : (e0.isBreakErr = true) ∨ rt ≤ ((0 : Nat) : Int) :=
        Or.inr (by exact_mod_cast hrt)
      simp only [doLoop, hfn, hu]
      rw [if_pos hcond]
      simp [pre, hu]

/-- C10: a negative `RetryTimes` (accepted unvalidated by `WithTimes`)
makes `Do` behave exactly as budget 0: the same trace and result as with
`WithTimes 0` for every context, and (with a live context) exactly one
operation invocation, no `onRetry` call, no delay-strategy evaluation,
and the single attempt's unwrapped error (or nil) as the result. -/
theorem negative_budget_behaves_as_zero (rt : Int) (hneg : rt < 0)
    (ctxErr : Option GoErr) (fn : Nat → Option GoErr)
    (cancel : Nat → Option GoErr) :
    ((NewConfig [WithTimes rt]).Do ctxErr fn cancel).2 =
      ((NewConfig [WithTimes 0]).Do ctxErr fn cancel).2 ∧
    ((NewConfig [WithTimes rt]).Do none fn cancel).2.1.filterMap
      Event.callIdx = [0] ∧
    ((NewConfig [WithTimes rt]).Do none fn cancel).2.1.filterMap
      Event.retryIdx = [] ∧
    ((NewConfig [WithTimes rt]).Do none fn cancel).2.1.filterMap
      Event.delayPr = [] ∧
    ((NewConfig [WithTimes rt]).Do none fn cancel).2.2 =
      (fn 0).bind GoErr.unwrap := by
  have hfuel : rt.toNat = 0 := by omega
  have hneg1 : ((NewConfig [WithTimes rt]).Do none fn cancel).2 =
      doLoop rt (FixedDelay 0) fn cancel 0 (rt.toNat + 1) := rfl
  have hzero1 : ((NewConfig [WithTimes 0]).Do none fn cancel).2 =
      doLoop 0 (FixedDelay 0) fn cancel 0 ((0 : Int).toNat + 1) := rfl
  have hkey := doLoop_fuel_one_nonpos rt (le_of_lt hneg) (FixedDelay 0) fn cancel
  have hkey0 := doLoop_fuel_one_nonpos 0 (le_refl 0) (FixedDelay 0) fn cancel
  refine ⟨?_, ?_, ?_, ?_, ?_⟩
  · cases ctxErr with
    | some e => rfl
    | none =>
      rw [hneg1, hzero1, hfuel]
      show doLoop rt (FixedDelay 0) fn cancel 0 1 =
        doLoop 0 (FixedDelay 0) fn cancel 0 1
      rw [hkey, hkey0]
  all_goals rw [show ((NewConfig [WithTimes rt]).Do none fn cancel).2 =
    doLoop rt (FixedDelay 0) fn cancel 0 1 by rw [hneg1, hfuel], hkey]
  all_goals cases hres : (fn 0).bind GoErr.unwrap <;>
    simp [Event.callIdx, Event.retryIdx, Event.delayPr]

/-- Witness for `negative_budget_behaves_as_zero` at budget -3 and an
always-failing operation. -/
theorem negative_budget_behaves_as_zero_witness :
    ((NewConfig [WithTimes (-3)]).Do none (fun _ => some (GoErr.tagged 2))
        (fun _ => none)).2 =
      ((NewConfig [WithTimes 0]).Do none (fun _ => some (GoErr.tagged 2))
        (fun _ => none)).2 ∧
    ((NewConfig [WithTimes (-3)]).Do none (fun _ => some (GoErr.tagged 2))
      (fun _ => none)).2.1.filterMap Event.callIdx = [0] ∧
    ((NewConfig [WithTimes (-3)]).Do none (fun _ => some (GoErr.tagged 2))
      (fun _ => none)).2.1.filterMap Event.retryIdx = [] ∧
    ((NewConfig [WithTimes (-3)]).Do none (fun _ => some (GoErr.tagged 2))
      (fun _ => none)).2.1.filterMap Event.delayPr = [] ∧
    ((NewConfig [WithTimes (-3)]).Do none (fun _ => some (GoErr.tagged 2))
      (fun _ => none)).2.2 =
      ((fun _ => some (GoErr.tagged 2)) 0).bind GoErr.unwrap :=
  negative_budget_behaves_as_zero (-3) (by norm_num) none
    (fun _ => some (GoErr.tagged 2)) (fun _ => none)

/-- C9: the delay strategy is evaluated only when a retry will actually
occur.  First part: for an operation succeeding on its `k`-th invocation
(no cancellation), the strategy is evaluated exactly for `n = 0..k-2`,
each time with the error of attempt `n`, and the run returns nil.
Second part: when the budget `b` is exhausted by an always-failing
operation, the strategy is evaluated exactly for `n = 0..b-1`, never
after the final attempt.  Third part: a Terminal-marked result on
attempt `j` evaluates the strategy exactly for `n = 0..j-1`, never for
attempt `j` itself. -/
theorem delay_strategy_only_before_actual_retry :
    (∀ (rt : Int) (orf : Option (Nat → Unit)) (off : Option (Nat → GoErr → Unit))
        (ds : Nat → GoErr → Int) (fn : Nat → Option GoErr)
        (cancel : Nat → Option GoErr) (E : Nat → GoErr) (k : Nat),
      1 ≤ k →
      (∀ i, i < k - 1 → fn i = some (E i) ∧ (E i).isBreakErr = false ∧
        (i : Int) < rt ∧ cancel i = none) →
      fn (k - 1) = none →
      ((Config.mk rt orf off (some ds)).Do none fn cancel).2.1.filterMap
          Event.delayPr =
        (List.range (k - 1)).map (fun i => (i, E i, ds i (E i))) ∧
      ((Config.mk rt orf off (some ds)).Do none fn cancel).2.2 = none) ∧
    (∀ (b : Nat) (orf : Option (Nat → Unit)) (off : Option (Nat → GoErr → Unit))
        (ds : Nat → GoErr → Int) (fn : Nat → Option GoErr)
        (cancel : Nat → Option GoErr) (E : Nat → GoErr),
      (∀ i, fn i = some (E i)) → (∀ i, (E i).isBreakErr = false) →
      (∀ i, cancel i = none) →
      ((Config.mk (b : Int) orf off (some ds)).Do none fn cancel).2.1.filterMap
          Event.delayPr =
        (List.range b).map (fun i => (i, E i, ds i (E i)))) ∧
    (∀ (rt : Int) (orf : Option (Nat → Unit)) (off : Option (Nat → GoErr → Unit))
        (ds : Nat → GoErr → Int) (fn : Nat → Option GoErr)
        (cancel : Nat → Option GoErr) (E : Nat → GoErr) (j : Nat)
        (inner : Option GoErr),
      (∀ i, i < j → fn i = some (E i) ∧ (E i).isBreakErr = false ∧
        (i : Int) < rt ∧ cancel i = none) →
      fn j = some (Break inner) →
      ((Config.mk rt orf off (some ds)).Do none fn cancel).2.1.filterMap
          Event.delayPr =
        (List.range j).map (fun i => (i, E i, ds i (E i)))) := by
  refine ⟨?_, ?_, ?_⟩
  · intro rt orf off ds fn cancel E k hk hpre hsucc
    have hrun := run_success rt orf off ds fn cancel E (k - 1) hpre hsucc
    rw [hrun]
    simp [List.filterMap_append, contTrace_delayPr, pre_delayPr,
      Event.delayPr, List.range_eq_range']
  · intro b orf off ds fn cancel E hfn hbr hc
    have hrun := run_allfail b orf off ds fn cancel E (fun i _ => hfn i)
      (fun i _ => hbr i) (fun i _ => hc i)
    rw [hrun]
    simp [List.filterMap_append, contTrace_delayPr, pre_delayPr,
      Event.delayPr, List.range_eq_range']
  · intro rt orf off ds fn cancel E j inner hpre hj
    have hrun := run_break rt orf off ds fn cancel E j inner hpre hj
    rw [hrun]
    cases inner with
    | none =>
      simp [List.filterMap_append, contTrace_delayPr, pre_delayPr,
        Event.delayPr, List.range_eq_range']
    | some e =>
      simp [List.filterMap_append, contTrace_delayPr, pre_delayPr,
        Event.delayPr, List.range_eq_range']

/-- Witness for `delay_strategy_only_before_actual_retry` (first part):
an operation failing once with `tagged 5` and succeeding on invocation
`k = 2`, under budget 2 and the constant strategy 3: one delay
evaluation, at attempt 0. -/
theorem delay_strategy_only_before_actual_retry_witness :
    ((Config.mk 2 none none (some (FixedDelay 3))).Do none
        (fun i => if i = 0 then some (GoErr.tagged 5) else none)
        (fun _ => none)).2.1.filterMap Event.delayPr =
      (List.range (2 - 1)).map
        (fun i => (i, GoErr.tagged 5, FixedDelay 3 i (GoErr.tagged 5))) ∧
    ((Config.mk 2 none none (some (FixedDelay 3))).Do none
        (fun i => if i = 0 then some (GoErr.tagged 5) else none)
        (fun _ => none)).2.2 = none :=
  delay_strategy_only_before_actual_retry.1 2 none none (FixedDelay 3)
    (fun i => if i = 0 then some (GoErr.tagged 5) else none)
    (fun _ => none) (fun _ => GoErr.tagged 5) 2 (by omega)
    (fun i hi => ⟨by simp [Nat.lt_one_iff.mp hi], rfl, by omega, rfl⟩) rfl

/-- C7 counterexample: `LinearDelay` does not return
`min(base*(n+1), max)` for every base.  With `base = -5`, `max = 10`,
`n = 0`, the computed delay `-5` is negative, so the code clamps it to
`max = 10`, while the claimed formula yields `-5`. -/
theorem linear_delay_not_min :
    LinearDelay (-5) 10 0 (GoErr.tagged 0) ≠
      min ((-5) * ((0 : Int) + 1)) 10 := by decide

/-- C7 amended: for non-negative `base` whose product `base*(n+1)` fits
in `int64` (no overflow), `LinearDelay base max` returns
`min(base*(n+1), max)`; a negative or overflowed product is instead
clamped to `max`. -/
theorem linear_delay_min_of_nonneg (baseDelay maxDelay : Int) (n : Nat)
    (e : GoErr) (hb : 0 ≤ baseDelay)
    (hno : baseDelay * ((n : Int) + 1) < 2 ^ 63) :
    LinearDelay baseDelay maxDelay n e =
      min (baseDelay * ((n : Int) + 1)) maxDelay := by
  have hnn : 0 ≤ baseDelay * ((n : Int) + 1) :=
    mul_nonneg hb (by positivity)
  rw [LinearDelay]
  rw [wrap64_of_bounds (baseDelay * ((n : Int) + 1)) (by omega) hno]
  split <;> omega

/-- Witness for `linear_delay_min_of_nonneg` at base 3, max 10, n 2. -/
theorem linear_delay_min_of_nonneg_witness :
    (0 : Int) ≤ 3 ∧ (3 : Int) * ((2 : Nat) + 1) < 2 ^ 63 ∧
      LinearDelay 3 10 2 (GoErr.tagged 0) =
        min ((3 : Int) * (((2 : Nat) : Int) + 1)) 10 :=
  ⟨by norm_num, by norm_num,
    linear_delay_min_of_nonneg 3 10 2 (GoErr.tagged 0) (by norm_num)
      (by norm_num)⟩

/-- C6 counterexample: `ExponentialDelay` does not return
`min(base*2^n, max)` for every base.  With `base = -5`, `max = 10`,
`n = 0`, the computed delay `-5` is negative, so the code clamps it to
`max = 10`, while the claimed formula yields `-5`. -/
theorem exponential_delay_not_min :
    ExponentialDelay (-5) 10 0 (GoErr.tagged 0) ≠
      min ((-5) * 2 ^ 0) 10 := by decide

/-- C6 amended: for non-negative `base` with `base*2^n` in `int64` range
(no overflow of the shift), `ExponentialDelay base max` returns
`min(base*2^n, max)`; a negative or overflow-wrapped shift result is
instead clamped to `max`. -/
theorem exponential_delay_min_of_nonneg (baseDelay maxDelay : Int) (n : Nat)
    (e : GoErr) (hb : 0 ≤ baseDelay) (hno : baseDelay * 2 ^ n < 2 ^ 63) :
    ExponentialDelay baseDelay maxDelay n e =
      min (baseDelay * 2 ^ n) maxDelay := by
  have hnn : 0 ≤ baseDelay * (2 : Int) ^ n :=
    mul_nonneg hb (by positivity)
  rw [ExponentialDelay]
  rw [wrap64_of_bounds (baseDelay * 2 ^ n) (by omega) hno]
  split <;> omega

/-- Witness for `exponential_delay_min_of_nonneg` at base 1, max 10,
n 2. -/
theorem exponential_delay_min_of_nonneg_witness :
    (0 : Int) ≤ 1 ∧ (1 : Int) * 2 ^ (2 : Nat) < 2 ^ 63 ∧
      ExponentialDelay 1 10 2 (GoErr.tagged 0) =
        min ((1 : Int) * 2 ^ (2 : Nat)) 10 :=
  ⟨by norm_num, by norm_num,
    exponential_delay_min_of_nonneg 1 10 2 (GoErr.tagged 0) (by norm_num)
      (by norm_num)⟩

/-- C8 counterexample: a call to `RandomDelay` does not always return a
value.  At `min = 0`, `max = 2^63 - 1` (the largest `int64` duration)
the bound `max - min + 1` passed to `rand.Int63n` overflows to a
non-positive value and the call panics instead of returning a duration
in `[min, max]`. -/
theorem random_delay_panics_at_full_span :
    RandomDelay (RandSrc.mk (fun _ => 0)) 0 (2 ^ 63 - 1) 0 (GoErr.tagged 0) =
      Except.error () := by
  norm_num [RandomDelay, normMin, normMax, wrap64]

/-- C8 amended: for `int64`-ranged inputs whose normalized interval is
not the full `int64` span (so the `rand.Int63n` bound does not
overflow), every call of `RandomDelay` with a source satisfying the
`rand.Int63n` contract returns a value: the normalized minimum is ≥ 0,
the normalized maximum is ≥ it, the returned value lies in the closed
normalized interval, and a degenerate interval returns its single point
exactly. -/
theorem random_delay_in_range (r : RandSrc) (minDelay maxDelay : Int)
    (n : Nat) (e : GoErr) (hr : r.valid)
    (hmin1 : -(2 ^ 63) ≤ minDelay) (hmin2 : minDelay < 2 ^ 63)
    (hmax1 : -(2 ^ 63) ≤ maxDelay) (hmax2 : maxDelay < 2 ^ 63)
    (hspan : normMax minDelay maxDelay - normMin minDelay < 2 ^ 63 - 1) :
    0 ≤ normMin minDelay ∧
    normMin minDelay ≤ normMax minDelay maxDelay ∧
    ∃ v, RandomDelay r minDelay maxDelay n e = Except.ok v ∧
      normMin minDelay ≤ v ∧ v ≤ normMax minDelay maxDelay ∧
      (normMin minDelay = normMax minDelay maxDelay → v = normMin minDelay) := by
  have ha : 0 ≤ normMin minDelay := by
    rw [normMin]; split <;> omega
  have hb : normMin minDelay ≤ normMax minDelay maxDelay := by
    rw [normMax]; split <;> omega
  have ha2 : normMin minDelay < 2 ^ 63 := by
    rw [normMin]; split <;> omega
  have hb2 : normMax minDelay maxDelay < 2 ^ 63 := by
    rw [normMax, normMin]; split <;> (try split) <;> omega
  refine ⟨ha, hb, ?_⟩
  rw [RandomDelay]
  rcases lt_or_eq_of_le hb with hlt | heq
  · rw [if_pos hlt]
    have hbound : wrap64 (normMax minDelay maxDelay - normMin minDelay + 1) =
        normMax minDelay maxDelay - normMin minDelay + 1 :=
      wrap64_of_bounds _ (by omega) (by omega)
    rw [hbound]
    rw [if_neg (by omega)]
    obtain ⟨hr1, hr2⟩ := hr (normMax minDelay maxDelay - normMin minDelay + 1)
      (by omega)
    have hv : wrap64 (normMin minDelay +
        r.int63n (normMax minDelay maxDelay - normMin minDelay + 1)) =
        normMin minDelay +
          r.int63n (normMax minDelay maxDelay - normMin minDelay + 1) :=
      wrap64_of_bounds _ (by omega) (by omega)
    rw [hv]
    exact ⟨_, rfl, by omega, by omega, fun hc => by omega⟩
  · rw [if_neg (by omega)]
    exact ⟨normMin minDelay, rfl, le_refl _, by omega, fun _ => rfl⟩

/-- Witness for `random_delay_in_range` at `min = 10`, `max = 20` with
the zero source (which meets the `rand.Int63n` contract). -/
theorem random_delay_in_range_witness :
    RandSrc.valid (RandSrc.mk (fun _ => 0)) ∧
    (0 ≤ normMin 10 ∧
      normMin 10 ≤ normMax 10 20 ∧
      ∃ v, RandomDelay (RandSrc.mk (fun _ => 0)) 10 20 0 (GoErr.tagged 0) =
          Except.ok v ∧
        normMin 10 ≤ v ∧ v ≤ normMax 10 20 ∧
        (normMin 10 = normMax 10 20 → v = normMin 10)) := by
  have hval : RandSrc.valid (RandSrc.mk (fun _ => 0)) :=
    fun b hb => ⟨le_refl 0, hb⟩
  exact ⟨hval, random_delay_in_range (RandSrc.mk (fun _ => 0)) 10 20 0
    (GoErr.tagged 0) hval (by norm_num) (by norm_num) (by norm_num)
    (by norm_num) (by norm_num [normMax, normMin])⟩

/-- Sanity check mirroring the `all failed` case of `TestDo`: budget 10
and an always-failing operation give 10 `onRetry` calls, 11 `onFailed`
calls and the test error as the result. -/
theorem model_checks_test_all_failed :
    (((Config.mk 10 none none none).Do none (fun _ => some (GoErr.tagged 1))
        (fun _ => none)).2.1.filterMap Event.retryIdx).length = 10 ∧
    (((Config.mk 10 none none none).Do none (fun _ => some (GoErr.tagged 1))
        (fun _ => none)).2.1.filterMap Event.failedPr).length = 11 ∧
    ((Config.mk 10 none none none).Do none (fun _ => some (GoErr.tagged 1))
        (fun _ => none)).2.2 = some (GoErr.tagged 1) := by decide

/-- Sanity check mirroring `TestBreak`: `Break` around nil gives exactly
one invocation, no observer calls and a nil result; `Break` around the
test error gives one invocation, one `onFailed` call and that error. -/
theorem model_checks_test_break :
    ((Config.mk 10 none none none).Do none (fun _ => some (Break none))
        (fun _ => none)).2 = ([Event.callEv 0], none) ∧
    ((Config.mk 10 none none none).Do none
        (fun _ => some (Break (some (GoErr.tagged 1)))) (fun _ => none)).2 =
      ([Event.callEv 0, Event.failedEv 0 (GoErr.tagged 1)],
        some (GoErr.tagged 1)) := by decide
